import Mathlib

/-!
Verification of the key-triples pipeline of `doc/notebooks/key_triples_walkthrough.ipynb`.

The notebook loads an observed triple set (`np.unique` over the parsed rows), an
emulated/candidate triple set, computes a centrality measure per node on both
graphs, differences the scores per observed node, propagates the per-node gains
to triples by summing over the two endpoints, and emits the top-`num_results`
triples with text labels.

Functions the notebook imports from modules that are not part of this tree
(`build_network`, `generate_node_changes`, `generate_result_lists`, and the
centrality engine) are modelled from the specification; their doc comments say
so explicitly.  Everything else is translated directly from the notebook cells.
Python floats are idealised as rationals.
-/

namespace KeyTriples

/-- A knowledge-graph triple `(head, tail, relation)`, one row of the triple file. -/
abbrev Triple := Nat × Nat × Nat

/-- Python `d.get(k, 0)` on a score dictionary represented as an association list. -/
def dictGet (d : List (Nat × Rat)) (k : Nat) : Rat := (d.lookup k).getD 0

/-- Score of one triple, the body of the notebook's scoring loop:
`gains.get(head, 0) + gains.get(tail, 0)`.  The relation id is not consulted. -/
def tripScore (gains : List (Nat × Rat)) (t : Triple) : Rat :=
  dictGet gains t.1 + dictGet gains t.2.1

/-- The notebook's `trip_scores`: `np.zeros(triples.shape[0])` followed by the
loop `for i, trip in enumerate(triples): trip_scores[i] = gains.get(head, 0) +
gains.get(tail, 0)`, i.e. an indexed write of `tripScore` into slot `i`. -/
def trip_scores (triples : List Triple) (gains : List (Nat × Rat)) : List Rat :=
  (triples.enum).foldl (fun acc p => acc.set p.1 (tripScore gains p.2))
    (List.replicate triples.length 0)

/-- Lexicographic order on triple rows, the order `np.unique(triples, axis=0)`
returns its rows in. -/
def tripLe (a b : Triple) : Prop :=
  a.1 < b.1 ∨ (a.1 = b.1 ∧ (a.2.1 < b.2.1 ∨ (a.2.1 = b.2.1 ∧ a.2.2 ≤ b.2.2)))

instance : DecidableRel tripLe := fun a b => by
  unfold tripLe
  exact inferInstance

instance : IsTotal Triple tripLe := ⟨by
  intro a b
  unfold tripLe
  omega⟩

instance : IsTrans Triple tripLe := ⟨by
  intro a b c
  unfold tripLe
  omega⟩

/-- The notebook's `np.unique(triples, axis=0)`: the distinct rows in
lexicographically sorted row order (numpy sorts the rows and drops duplicates;
sorting the first occurrences yields that same list). -/
def np_unique (l : List Triple) : List Triple := List.insertionSort tripLe l.dedup

/-- The comparison underlying `trip_scores.argsort()`: order two indices by
their scores.  numpy's default argsort (introsort) fixes no particular order on
equal scores in general; the `i ≤ j` tie-break here only determinizes the
embedding so that it is a well-defined executable function.  It coincides with
numpy's actual behavior on arrays of at most 16 elements, where introsort runs
a stable insertion sort — which covers every concrete array evaluated in this
file — and no universally quantified theorem below asserts a tie order. -/
def scoreIdxLe (s : List Rat) (i j : Nat) : Prop :=
  s.getD i 0 < s.getD j 0 ∨ (s.getD i 0 = s.getD j 0 ∧ i ≤ j)

instance (s : List Rat) : DecidableRel (scoreIdxLe s) := fun i j => by
  unfold scoreIdxLe
  exact inferInstance

instance (s : List Rat) : IsTotal Nat (scoreIdxLe s) := ⟨by
  intro i j
  unfold scoreIdxLe
  rcases lt_trichotomy (s.getD i 0) (s.getD j 0) with h | h | h
  · exact Or.inl (Or.inl h)
  · rcases Nat.le_total i j with hij | hij
    · exact Or.inl (Or.inr ⟨h, hij⟩)
    · exact Or.inr (Or.inr ⟨h.symm, hij⟩)
  · exact Or.inr (Or.inl h)⟩

instance (s : List Rat) : IsTrans Nat (scoreIdxLe s) := ⟨by
  intro a b c hab hbc
  rcases hab with h1 | ⟨e1, l1⟩ <;> rcases hbc with h2 | ⟨e2, l2⟩
  · exact Or.inl (h1.trans h2)
  · exact Or.inl (lt_of_lt_of_le h1 (le_of_eq e2))
  · exact Or.inl (lt_of_le_of_lt (le_of_eq e1) h2)
  · exact Or.inr ⟨e1.trans e2, l1.trans l2⟩⟩

/-- `trip_scores.argsort()`: the indices `0 .. n-1` sorted ascending by score. -/
def argsortAsc (s : List Rat) : List Nat :=
  List.insertionSort (scoreIdxLe s) (List.range s.length)

/-- The notebook's `idxs = trip_scores.argsort()[::-1]`: the ascending argsort,
reversed. -/
def argsortDesc (s : List Rat) : List Nat := (argsortAsc s).reverse

/-- Python slice `l[:k]` for an integer bound `k`: a non-negative `k` keeps the
first `k` elements, a negative `k` drops the last `|k|` (so `l[:-1]` is all but
the last element), exactly as `[:num_results]` behaves in the notebook. -/
def pySlice {α : Type} (k : Int) (l : List α) : List α :=
  if 0 ≤ k then l.take k.toNat else l.take ((l.length : Int) + k).toNat

/-- The notebook's `top = triples[idxs,][:num_results,:]`: reorder the triple
rows by `idxs`, then slice off the first `num_results`. -/
def topRows (triples : List Triple) (scores : List Rat) (k : Int) : List Triple :=
  pySlice k ((argsortDesc scores).map (fun j => triples.getD j (0, 0, 0)))

/-- One entry of the notebook's `results` dictionary.  Because the loop runs
`h, t, r = t`, rebinding `t` from the triple row to the tail id, the `idxs`
field receives only the tail entity id, not the triple row. -/
structure Record where
  idxs : Nat
  label : String
  score : Rat
  deriving DecidableEq

deriving instance DecidableEq for Except

/-- The `(triple_id, triple_row)` pairs the labeling loop visits:
`triple_id = idxs[i]` paired positionally with `top[i]`. -/
def retained (triples : List Triple) (scores : List Rat) (k : Int) :
    List (Nat × Triple) :=
  (argsortDesc scores).zip (topRows triples scores k)

/-- Python dictionary indexing `d[k]` on a lookup table: raises `KeyError`
(a subclass of `LookupError`) when the id is absent. -/
def pyIndex (d : List (Nat × String)) (k : Nat) : Except String String :=
  match d.lookup k with
  | some v => Except.ok v
  | none => Except.error "LookupError"

/-- The labeling loop of the notebook's final cell over the retained pairs:
resolve `ents[h]`, `rels[r]`, `ents[t]` in source evaluation order, join with
single spaces, and record `{idxs: t, label, score}` keyed by `triple_id`.
A missing id raises, aborting the loop with no record for that triple. -/
def labelLoop (ents rels : List (Nat × String)) (scores : List Rat) :
    List (Nat × Triple) → Except String (List (Nat × Record))
  | [] => Except.ok []
  | (tid, tp) :: rest =>
    match pyIndex ents tp.1 with
    | Except.error e => Except.error e
    | Except.ok eh =>
      match pyIndex rels tp.2.2 with
      | Except.error e => Except.error e
      | Except.ok er =>
        match pyIndex ents tp.2.1 with
        | Except.error e => Except.error e
        | Except.ok et =>
          match labelLoop ents rels scores rest with
          | Except.error e => Except.error e
          | Except.ok recs =>
            Except.ok ((tid,
              ⟨tp.2.1, eh ++ " " ++ er ++ " " ++ et, scores.getD tid 0⟩) :: recs)

/-- Predicate for a retained pair whose triple references an id that is absent
from the entity or relation lookup table. -/
def missingId (ents rels : List (Nat × String)) (p : Nat × Triple) : Prop :=
  ents.lookup p.2.1 = none ∨ rels.lookup p.2.2.2 = none ∨
    ents.lookup p.2.2.1 = none

instance (ents rels : List (Nat × String)) : DecidablePred (missingId ents rels) :=
  fun p => by
    unfold missingId
    exact inferInstance

/-- The notebook's final cell end to end: select the top-`k` triples and build
the results mapping from `triple_id` to its record. -/
def buildResults (triples : List Triple) (scores : List Rat) (k : Int)
    (ents rels : List (Nat × String)) : Except String (List (Nat × Record)) :=
  labelLoop ents rels scores (retained triples scores k)

/-- Order on `(node, delta)` pairs by delta, the key the notebook's
`sorted(result.items(), key=lambda item: item[1])` sorts by. -/
def deltaLe (p q : Nat × Rat) : Prop := p.2 ≤ q.2

instance : DecidableRel deltaLe := fun p q => by
  unfold deltaLe
  exact inferInstance

instance : IsTotal (Nat × Rat) deltaLe := ⟨fun p q => le_total p.2 q.2⟩

instance : IsTrans (Nat × Rat) deltaLe := ⟨fun _ _ _ h1 h2 => le_trans h1 h2⟩

/-- Modelled from the spec: `generate_node_changes` (imported from
`calculate_network_change`, which is not under src/) iterates over exactly the
observed score mapping's keys and assigns each node the delta
`candidate.get(node, 0) - observed[node]`; the notebook then sorts the mapping
ascending by delta. -/
def rank_changes (A B : List (Nat × Rat)) : List (Nat × Rat) :=
  List.insertionSort deltaLe (A.map (fun p => (p.1, dictGet B p.1 - p.2)))

/-- Modelled from the spec: `generate_result_lists(ranking, n, mode)` (imported
from `calculate_network_change`, which is not under src/): mode `"top"` returns
the last `n` entries of the ascending ranking (the largest deltas), `"bottom"`
the first `n`; an `n` beyond the length returns the whole ranking. -/
def select (ranking : List (Nat × Rat)) (n : Nat) (mode : String) :
    List (Nat × Rat) :=
  if mode = "top" then ranking.drop (ranking.length - n) else ranking.take n

/-- Modelled from the spec: `build_network` (imported from
`multivac.get_kg_query_params`, which is not under src/) turns a triple array
into the graph the centrality engine consumes; per the reference scenario of the
spec the graph is undirected.  Nodes are all head and tail ids in order of first
appearance; one undirected edge per distinct `(head, tail)` pair. -/
def build_network (triples : List Triple) : List Nat × List (Nat × Nat) :=
  ((triples.map (fun tp => tp.1) ++ triples.map (fun tp => tp.2.1)).dedup,
    (triples.map (fun tp => (tp.1, tp.2.1))).dedup)

/-- Total weight of the neighbors of `n` in an undirected edge list under the
weight assignment `x`. -/
def nbrSum (edges : List (Nat × Nat)) (x : Nat → Int) (n : Nat) : Int :=
  edges.foldl (fun acc e =>
    acc + (if e.1 = n then x e.2 else 0) + (if e.2 = n then x e.1 else 0)) 0

/-- Weight of node `n` in an integer weight assignment over the node list. -/
def wGet (w : List (Nat × Int)) (n : Nat) : Int := (w.lookup n).getD 0

/-- Modelled from the spec: one step of the power iteration for eigenvector
centrality, `x ← x + A·x`, kept as integer weights; because every step is
followed by an L1 normalization of a positive vector, the normalization can be
deferred to the very end without changing the normalized scores. -/
def stepWeights (nodes : List Nat) (edges : List (Nat × Nat))
    (w : List (Nat × Int)) : List (Nat × Int) :=
  nodes.map (fun n => (n, wGet w n + nbrSum edges (wGet w) n))

/-- Modelled from the spec: eigenvector centrality of node `n` after `iters`
power-iteration steps starting from the uniform vector, L1-normalized. -/
def eigCentrality (net : List Nat × List (Nat × Nat)) (iters : Nat) (n : Nat) :
    Rat :=
  let w : List (Nat × Int) :=
    Nat.iterate (stepWeights net.1 net.2) iters (net.1.map (fun m => (m, 1)))
  mkRat (wGet w n) ((w.map (fun p : Nat × Int => p.2)).sum).toNat

/-- The observed triples of the reference scenario, as loaded by the notebook
(parse, cast, `np.unique`). -/
def obsTriples : List Triple := np_unique [(1, 2, 0), (2, 3, 0), (3, 1, 0)]

/-- The candidate (emulated) triples of the reference scenario, read without
de-duplication. -/
def candTriples : List Triple := [(1, 2, 0), (2, 3, 0), (3, 1, 0), (1, 4, 0)]

/-- The configured iteration cap of the power iteration for the reference
scenario; the iteration has long converged past the decided margins by then. -/
def eigIters : Nat := 12

/-- Modelled from the spec: `build_comparison_metrics` specialised to the
reference scenario: the observed-graph centrality score of every node of the
observed network. -/
def obsScores : List (Nat × Rat) :=
  (build_network obsTriples).1.map
    (fun n => (n, eigCentrality (build_network obsTriples) eigIters n))

/-- Modelled from the spec: the candidate-graph centrality scores, still over
the observed network's node set. -/
def candScores : List (Nat × Rat) :=
  (build_network obsTriples).1.map
    (fun n => (n, eigCentrality (build_network candTriples) eigIters n))

/-- The notebook's `gains` for the reference scenario: the full ascending delta
ranking re-expressed as a mapping (`generate_result_lists(result, len(result),
'top')`). -/
def gainsRef : List (Nat × Rat) :=
  select (rank_changes obsScores candScores)
    (rank_changes obsScores candScores).length "top"

/-- The reference scenario's triple scores from the notebook's scoring loop. -/
def refScores : List Rat := trip_scores obsTriples gainsRef

end KeyTriples

namespace KeyTriples

theorem set_append_cons {α : Type} (pre : List α) (v w : α) (rest : List α) :
    (pre ++ w :: rest).set pre.length v = pre ++ v :: rest := by
  induction pre with
  | nil => rfl
  | cons a l ih => simp [ih]

theorem foldl_set_enumFrom {α : Type} (f : Triple → α) :
    ∀ (ts : List Triple) (pre rest : List α), rest.length = ts.length →
      (List.enumFrom pre.length ts).foldl (fun acc p => acc.set p.1 (f p.2)) (pre ++ rest)
        = pre ++ ts.map f := by
  intro ts
  induction ts with
  | nil =>
    intro pre rest hlen
    cases rest with
    | nil => simp [List.enumFrom]
    | cons r rs => simp at hlen
  | cons t ts ih =>
    intro pre rest hlen
    cases rest with
    | nil => simp at hlen
    | cons r rs =>
      have hstep : (pre ++ r :: rs).set pre.length (f t) = (pre ++ [f t]) ++ rs := by
        rw [set_append_cons]
        simp
      have hlen2 : rs.length = ts.length := by simpa using hlen
      have hpre : (pre ++ [f t]).length = pre.length + 1 := by simp
      calc (List.enumFrom pre.length (t :: ts)).foldl
            (fun acc p => acc.set p.1 (f p.2)) (pre ++ r :: rs)
          = (List.enumFrom (pre.length + 1) ts).foldl
            (fun acc p => acc.set p.1 (f p.2)) ((pre ++ [f t]) ++ rs) := by
            rw [List.enumFrom]
            simp only [List.foldl_cons, hstep]
        _ = (List.enumFrom (pre ++ [f t]).length ts).foldl
            (fun acc p => acc.set p.1 (f p.2)) ((pre ++ [f t]) ++ rs) := by rw [hpre]
        _ = (pre ++ [f t]) ++ ts.map f := ih (pre ++ [f t]) rs hlen2
        _ = pre ++ (t :: ts).map f := by simp

theorem trip_scores_eq_map (triples : List Triple) (gains : List (Nat × Rat)) :
    trip_scores triples gains = triples.map (tripScore gains) := by
  have h := foldl_set_enumFrom (tripScore gains) triples []
    (List.replicate triples.length (0 : Rat)) (by simp)
  simpa [trip_scores, List.enum] using h

theorem trip_scores_length (triples : List Triple) (gains : List (Nat × Rat)) :
    (trip_scores triples gains).length = triples.length := by
  rw [trip_scores_eq_map]
  simp

theorem trip_scores_getD (triples : List Triple) (gains : List (Nat × Rat))
    (i : Nat) (hi : i < triples.length) :
    (trip_scores triples gains).getD i 0 = tripScore gains (triples.getD i (0, 0, 0)) := by
  rw [trip_scores_eq_map]
  have hi2 : i < (triples.map (tripScore gains)).length := by simpa using hi
  rw [List.getD_eq_getElem _ _ hi2, List.getD_eq_getElem _ _ hi]
  simp

/-- C1: for every triple `(h, t, r)` in the observed sequence and every gains
mapping, the score at that triple's index is `gains.get(h, 0) + gains.get(t, 0)`;
the relation id is never consulted, absent endpoints contribute `0`, no error is
possible, and the score sequence has exactly one entry per triple. -/
theorem score_triples_spec (triples : List Triple) (gains : List (Nat × Rat)) :
    (trip_scores triples gains).length = triples.length ∧
    ∀ i, i < triples.length →
      (trip_scores triples gains).getD i 0 =
        dictGet gains (triples.getD i (0, 0, 0)).1 +
          dictGet gains (triples.getD i (0, 0, 0)).2.1 := by
  refine ⟨trip_scores_length triples gains, fun i hi => ?_⟩
  rw [trip_scores_getD triples gains i hi]
  rfl

theorem score_triples_spec_witness :
    (trip_scores [(1, 2, 5)] [(1, 3), (7, 9)]).getD 0 0 =
      dictGet [(1, 3), (7, 9)] (([((1 : Nat), (2 : Nat), (5 : Nat))].getD 0 (0, 0, 0)).1) +
        dictGet [(1, 3), (7, 9)] (([((1 : Nat), (2 : Nat), (5 : Nat))].getD 0 (0, 0, 0)).2.1) :=
  (score_triples_spec [(1, 2, 5)] [(1, 3), (7, 9)]).2 0 (by decide)

/-- C9: a self-loop triple `(h, h, r)` scores exactly twice `gains.get(h, 0)`:
the shared endpoint is counted once as head and once as tail. -/
theorem self_loop_double (triples : List Triple) (gains : List (Nat × Rat))
    (i : Nat) (hi : i < triples.length)
    (hloop : (triples.getD i (0, 0, 0)).1 = (triples.getD i (0, 0, 0)).2.1) :
    (trip_scores triples gains).getD i 0 =
      2 * dictGet gains (triples.getD i (0, 0, 0)).1 := by
  rw [trip_scores_getD triples gains i hi, tripScore, ← hloop]
  ring

theorem self_loop_double_witness :
    (trip_scores [(4, 4, 1)] [(4, 5)]).getD 0 0 =
      2 * dictGet [(4, 5)] (([((4 : Nat), (4 : Nat), (1 : Nat))].getD 0 (0, 0, 0)).1) :=
  self_loop_double [(4, 4, 1)] [(4, 5)] 0 (by decide) (by decide)

end KeyTriples

namespace KeyTriples

theorem argsortAsc_perm (s : List Rat) :
    (argsortAsc s).Perm (List.range s.length) :=
  List.perm_insertionSort _ _

theorem argsortAsc_pairwise (s : List Rat) :
    List.Pairwise (scoreIdxLe s) (argsortAsc s) :=
  List.sorted_insertionSort _ _

/-- C2 amended: the notebook's `idxs = trip_scores.argsort()[::-1]` orders the
triple indices by score descending (non-increasing) and visits every triple
index exactly once, but equal-score ties are NOT guaranteed to preserve the
original triple order: numpy's default argsort fixes no tie order in general,
and even on its deterministic small-array path the reversal puts the larger
original index first (see the counterexample). -/
theorem topk_desc_spec (s : List Rat) :
    (argsortDesc s).Perm (List.range s.length) ∧
    List.Pairwise (fun i j => s.getD j 0 ≤ s.getD i 0) (argsortDesc s) := by
  constructor
  · exact (List.reverse_perm _).trans (argsortAsc_perm s)
  · rw [argsortDesc, List.pairwise_reverse]
    refine List.Pairwise.imp ?_ (argsortAsc_pairwise s)
    intro a b hab
    rcases hab with hlt | ⟨heq, _⟩
    · exact le_of_lt hlt
    · exact le_of_eq heq

/-- C2 counterexample: two triples with equal score `0`, a 2-element array on
which numpy's argsort deterministically runs its stable insertion-sort path.
The claim requires the smaller original index first, i.e. the index order
`[0, 1]`; the code produces `[1, 0]`. -/
theorem topk_tie_counterexample :
    argsortDesc [(0 : Rat), 0] = [1, 0] ∧ ([1, 0] : List Nat) ≠ [0, 1] := by
  with_unfolding_all decide

/-- C3 amended: after loading, the observed triple sequence is the de-duplicated
rows in lexicographically sorted row order, not in original file order. -/
theorem np_unique_spec (l : List Triple) :
    List.Sorted tripLe (np_unique l) ∧ (np_unique l).Perm l.dedup ∧
      (np_unique l).Nodup :=
  ⟨List.sorted_insertionSort _ _, List.perm_insertionSort _ _,
    (List.perm_insertionSort _ _).nodup_iff.mpr (List.nodup_dedup _)⟩

/-- C3 counterexample: a duplicate-free file whose rows are not in sorted order.
Retaining first occurrences in file order would return the input unchanged
(which here equals its `dedup`), but `np.unique` returns the rows sorted. -/
theorem np_unique_order_counterexample :
    np_unique [(2, 0, 0), (1, 0, 0)] = [(1, 0, 0), (2, 0, 0)] ∧
    List.dedup ([(2, 0, 0), (1, 0, 0)] : List Triple) = [(2, 0, 0), (1, 0, 0)] ∧
    np_unique [(2, 0, 0), (1, 0, 0)] ≠
      List.dedup ([(2, 0, 0), (1, 0, 0)] : List Triple) := by
  decide

/-- C4: `rank_changes` iterates exactly over the observed mapping's keys with
delta `candidate.get(node, 0) - observed[node]` (the permutation conjunct), has
exactly `len(A)` entries, and is sorted non-decreasing by delta. -/
theorem rank_changes_spec (A B : List (Nat × Rat)) :
    (rank_changes A B).length = A.length ∧
    (rank_changes A B).Perm (A.map (fun p => (p.1, dictGet B p.1 - p.2))) ∧
    List.Pairwise deltaLe (rank_changes A B) := by
  refine ⟨?_, List.perm_insertionSort _ _, List.sorted_insertionSort _ _⟩
  rw [rank_changes, (List.perm_insertionSort deltaLe _).length_eq]
  simp

end KeyTriples

namespace KeyTriples

theorem labelLoop_error (ents rels : List (Nat × String)) (scores : List Rat) :
    ∀ l : List (Nat × Triple), (∃ p ∈ l, missingId ents rels p) →
      ∃ msg, labelLoop ents rels scores l = Except.error msg := by
  intro l
  induction l with
  | nil =>
    rintro ⟨p, hp, _⟩
    cases hp
  | cons q rest ih =>
    obtain ⟨tid, tp⟩ := q
    rintro ⟨p, hp, hmiss⟩
    cases hl1 : ents.lookup tp.1 with
    | none => exact ⟨"LookupError", by simp [labelLoop, pyIndex, hl1]⟩
    | some v1 =>
      cases hl2 : rels.lookup tp.2.2 with
      | none => exact ⟨"LookupError", by simp [labelLoop, pyIndex, hl1, hl2]⟩
      | some v2 =>
        cases hl3 : ents.lookup tp.2.1 with
        | none => exact ⟨"LookupError", by simp [labelLoop, pyIndex, hl1, hl2, hl3]⟩
        | some v3 =>
          rcases List.mem_cons.mp hp with rfl | hmem
          · rw [missingId] at hmiss
            rw [hl1, hl2, hl3] at hmiss
            simp at hmiss
          · obtain ⟨msg, hmsg⟩ := ih ⟨p, hmem, hmiss⟩
            exact ⟨msg, by simp [labelLoop, pyIndex, hl1, hl2, hl3, hmsg]⟩

/-- C6: if any retained triple references a head, tail, or relation id that is
absent from the respective lookup table, the labeler raises `LookupError` and
the run produces no results mapping at all, in particular no partial record for
that triple. -/
theorem label_missing_raises (triples : List Triple) (scores : List Rat)
    (k : Int) (ents rels : List (Nat × String))
    (h : ∃ p ∈ retained triples scores k, missingId ents rels p) :
    ∃ msg, buildResults triples scores k ents rels = Except.error msg :=
  labelLoop_error ents rels scores (retained triples scores k) h

theorem label_missing_raises_witness :
    ∃ msg, buildResults [(1, 2, 0)] [0] 1 [] [] = Except.error msg :=
  label_missing_raises [(1, 2, 0)] [0] 1 [] [] (by with_unfolding_all decide)

/-- C7: in the reference scenario (observed 3-cycle, candidate adds the edge
`(1, 4, 0)`), with eigenvector centrality and the full "top" gains mapping,
node 1's delta strictly exceeds the deltas of nodes 2 and 3, and the triple
`(1, 2, 0)` (observed index 0) scores at least as high as `(2, 3, 0)` (observed
index 1). -/
theorem reference_scenario :
    obsTriples.getD 0 (0, 0, 0) = (1, 2, 0) ∧
    obsTriples.getD 1 (0, 0, 0) = (2, 3, 0) ∧
    dictGet gainsRef 2 < dictGet gainsRef 1 ∧
    dictGet gainsRef 3 < dictGet gainsRef 1 ∧
    refScores.getD 1 0 ≤ refScores.getD 0 0 := by
  with_unfolding_all decide

/-- C8: `select(ranking, n, "top")` concatenated with
`select(ranking, len - n, "bottom")` is a permutation of the whole ranking: the
two slices partition its entries with nothing duplicated or omitted. -/
theorem select_partition (ranking : List (Nat × Rat)) (n : Nat)
    (_h : n ≤ ranking.length) :
    (select ranking n "top" ++
      select ranking (ranking.length - n) "bottom").Perm ranking := by
  have htop : select ranking n "top" = ranking.drop (ranking.length - n) := by
    simp [select]
  have hbot : select ranking (ranking.length - n) "bottom" =
      ranking.take (ranking.length - n) := by
    simp [select]
  rw [htop, hbot]
  refine List.Perm.trans List.perm_append_comm ?_
  rw [List.take_append_drop]

theorem select_partition_witness :
    (select [(5, 1)] 1 "top" ++
      select [(5, 1)] ([((5 : Nat), (1 : Rat))].length - 1) "bottom").Perm
      [(5, 1)] :=
  select_partition [(5, 1)] 1 (by decide)

/-- C10: the labeler evaluated at a failing input.  For the single observed
triple `(1, 2, 0)` with complete lookup tables, the emitted record stores `2`
(only the tail entity id) in its `idxs` field, not the observed triple
`(1, 2, 0)`, because the source rebinds `t` from the triple row to the tail id
before building the record; the stored score is the triple score as claimed. -/
theorem record_endpoints_bug :
    buildResults [(1, 2, 0)] (trip_scores [(1, 2, 0)] []) 1
        [(1, "a"), (2, "b")] [(0, "r")]
      = Except.ok [(0, ⟨2, "a r b", 0⟩)] := by
  with_unfolding_all decide

end KeyTriples
